import Mathlib

/-!
Shallow embedding of the volume-discount Shopify function in
`src/extensions/volume-logic/src/run.rs`.

The input and output record types mirror the structs generated from
`run.graphql`, restricted to the fields the function actually touches.
Machine integers (`i64`) are embedded as `Int`: the code only compares
quantities and thresholds, never performs arithmetic on them, so no
wrap-around can occur.  `f64` is embedded as `Float`; the code only
copies discount values, never computes with them.

The call `serde_json::from_str::<Vec<TierConfig>>(..)` is a call into an
external library (serde), not code of this repository; the embedding
takes the decoder as an explicit parameter
`from_str : String → Option (List TierConfig)` (`none` = decode error)
and `.unwrap_or(vec![])` becomes `Option.getD _ []`.
-/

namespace VolumeLogic

/-- One row of merchant tier configuration (struct `TierConfig` in run.rs):
`qty` is the threshold (`i64`), `discount` the percentage (`f64`),
`label` a display string.  The struct carries no validation attributes. -/
structure TierConfig where
  qty : Int
  discount : Float
  label : String

/-- The metaobject field holding the serialized tier list (`tiers_field` in
run.rs); its `value` is the raw configuration text. -/
structure TiersField where
  value : String
deriving DecidableEq

/-- The metaobject reached through the metafield reference; its `tiers`
field may be absent. -/
structure Metaobject where
  tiers : Option TiersField
deriving DecidableEq

/-- The metafield reference
(`InputCartLinesMerchandiseProductVolumeDiscountReference`): either a
metaobject or some other reference kind. -/
inductive VolumeDiscountReference where
  | metaobject (m : Metaobject)
  | otherReference
deriving DecidableEq

/-- The product metafield `volume_discount`; its reference may be absent. -/
structure Metafield where
  reference : Option VolumeDiscountReference
deriving DecidableEq

/-- The product carried by a variant, with its optional `volume_discount`
metafield. -/
structure Product where
  volume_discount : Option Metafield
deriving DecidableEq

/-- A product variant: an opaque id plus its product. -/
structure ProductVariant where
  id : String
  product : Product
deriving DecidableEq

/-- Cart line merchandise (`InputCartLinesMerchandise`): a product variant
or some other merchandise kind. -/
inductive Merchandise where
  | productVariant (variant : ProductVariant)
  | otherMerchandise
deriving DecidableEq

/-- One cart line: a quantity (`i64`) and its merchandise. -/
structure CartLine where
  quantity : Int
  merchandise : Merchandise
deriving DecidableEq

/-- The cart: an ordered list of lines. -/
structure Cart where
  lines : List CartLine
deriving DecidableEq

/-- The whole function input (`input::ResponseData`). -/
structure ResponseData where
  cart : Cart
deriving DecidableEq

/-- Output target for a product variant (`output::ProductVariantTarget`);
run.rs always sets `quantity` to `None`. -/
structure ProductVariantTarget where
  id : String
  quantity : Option Int
deriving DecidableEq

/-- Output discount target (`output::Target`). -/
structure Target where
  product_variant : Option ProductVariantTarget
deriving DecidableEq

/-- Output percentage value (`output::Percentage`). -/
structure Percentage where
  value : Float

/-- Placeholder for `output::FixedAmount`; run.rs never constructs one. -/
structure FixedAmount where
  amount : Float

/-- Output discount value (`output::Value`); run.rs always sets
`fixed_amount` to `None`. -/
structure Value where
  percentage : Option Percentage
  fixed_amount : Option FixedAmount

/-- One output discount (`output::Discount`). -/
structure Discount where
  value : Value
  targets : List Target
  message : Option String

/-- The response-level strategy tag
(`output::DiscountApplicationStrategy`). -/
inductive DiscountApplicationStrategy where
  | FIRST
  | MAXIMUM
deriving DecidableEq

/-- The whole function output (`output::FunctionResult`). -/
structure FunctionResult where
  discounts : List Discount
  discount_application_strategy : DiscountApplicationStrategy

/-- Embedding of `serde_json::from_str(&tiers_field.value).unwrap_or(vec![])`:
the external decode `from_str` either yields a tier list or fails, and a
failure is recovered to the empty list. -/
def parseTiers (from_str : String → Option (List TierConfig)) (s : String) :
    List TierConfig :=
  (from_str s).getD []

/-- One iteration of the best-tier loop in run.rs: a tier is considered only
when `quantity >= tier.qty`, and it replaces the current best only when its
threshold is strictly larger. -/
def bestTierStep (quantity : Int) (best : Option TierConfig)
    (tier : TierConfig) : Option TierConfig :=
  if quantity ≥ tier.qty then
    match best with
    | some current_best =>
        if tier.qty > current_best.qty then some tier else best
    | none => some tier
  else
    best

/-- The best-tier loop of run.rs (step 4 in the source): a left fold of
`bestTierStep` starting from `None`. -/
def bestTier (quantity : Int) (config : List TierConfig) : Option TierConfig :=
  config.foldl (bestTierStep quantity) none

/-- Construction of the output discount from a resolved tier (step 5 in
run.rs): a percentage value, a single product-variant target, and the
tier's label as the message. -/
def buildDiscount (variantId : String) (tier : TierConfig) : Discount :=
  { value := { percentage := some { value := tier.discount }
               fixed_amount := none }
    targets := [{ product_variant := some { id := variantId
                                            quantity := none } }]
    message := some tier.label }

/-- The body of the per-line loop in run.rs: the nested `if let` chain
(variant → metafield → reference → metaobject → tiers field), the JSON
parse, the best-tier fold, and the discount construction.  Returns the
discount pushed for this line, or `none` when the line is skipped. -/
def lineDiscount (from_str : String → Option (List TierConfig))
    (line : CartLine) : Option Discount :=
  match line.merchandise with
  | Merchandise.productVariant variant =>
    match variant.product.volume_discount with
    | some metafield =>
      match metafield.reference with
      | some (VolumeDiscountReference.metaobject metaobject) =>
        match metaobject.tiers with
        | some tiers_field =>
          match bestTier line.quantity (parseTiers from_str tiers_field.value) with
          | some tier => some (buildDiscount variant.id tier)
          | none => none
        | none => none
      | some VolumeDiscountReference.otherReference => none
      | none => none
    | none => none
  | Merchandise.otherMerchandise => none

/-- One iteration of `for line in input.cart.lines` in run.rs: the line's
discount, when there is one, is pushed onto the accumulated vector. -/
def pushLine (from_str : String → Option (List TierConfig))
    (discounts : List Discount) (line : CartLine) : List Discount :=
  match lineDiscount from_str line with
  | some d => discounts ++ [d]
  | none => discounts

/-- The `for line in input.cart.lines` loop of run.rs: starting from the
empty vector, each qualifying line pushes exactly one discount. -/
def discountsOf (from_str : String → Option (List TierConfig))
    (input : ResponseData) : List Discount :=
  input.cart.lines.foldl (pushLine from_str) []

/-- The whole `function` of run.rs: it always returns `Ok` of a
`FunctionResult` holding the accumulated discounts and the fixed
`MAXIMUM` strategy.  The error type stands for `shopify_function::Result`'s
error component, which the body never produces. -/
def function (from_str : String → Option (List TierConfig))
    (input : ResponseData) : Except String FunctionResult :=
  Except.ok
    { discounts := discountsOf from_str input
      discount_application_strategy := DiscountApplicationStrategy.MAXIMUM }

/-!  Spec-side definitions (from the specification's wording), used for the
refinement-style claims: the `configFor` accessor of spec §9, the
TierResolver of spec §4.2 stated as "first candidate with the largest
threshold", and the per-line transform obtained by composing the spec's
components. -/

/-- Adapter of spec §9: `configFor(line) -> optional<text>`, the multi-hop
lookup metafield → reference → metaobject → field value. -/
def configFor (line : CartLine) : Option String :=
  match line.merchandise with
  | Merchandise.productVariant variant =>
    match variant.product.volume_discount with
    | some metafield =>
      match metafield.reference with
      | some (VolumeDiscountReference.metaobject metaobject) =>
        match metaobject.tiers with
        | some tiers_field => some tiers_field.value
        | none => none
      | some VolumeDiscountReference.otherReference => none
      | none => none
    | none => none
  | Merchandise.otherMerchandise => none

/-- The merchandise reference of a line (the variant id), when the line is
a product variant. -/
def variantId (line : CartLine) : Option String :=
  match line.merchandise with
  | Merchandise.productVariant variant => some variant.id
  | Merchandise.otherMerchandise => none

/-- TierResolver of spec §4.2, stated from the spec's words: among the
candidates (`quantity ≥ threshold`) pick the one with the largest
threshold, the first one encountered winning ties — i.e. the first tier in
the sequence that is a candidate and whose threshold dominates every
candidate's threshold. -/
def resolveSpec (quantity : Int) (tiers : List TierConfig) :
    Option TierConfig :=
  tiers.find? fun t =>
    decide (t.qty ≤ quantity) &&
      tiers.all fun u => !decide (u.qty ≤ quantity) || decide (u.qty ≤ t.qty)

/-- The per-line transform assembled from the spec's components:
classification (variant vs other), `configFor`, ConfigParser, TierResolver,
DiscountBuilder. -/
def lineDiscountSpec (from_str : String → Option (List TierConfig))
    (line : CartLine) : Option Discount :=
  match variantId line, configFor line with
  | some ref, some raw =>
      Option.map (buildDiscount ref)
        (resolveSpec line.quantity (parseTiers from_str raw))
  | _, _ => none

/-- Does a discount target the given merchandise reference? -/
def targetsRef (d : Discount) (ref : String) : Bool :=
  d.targets.any fun t =>
    match t.product_variant with
    | some pv => pv.id == ref
    | none => false

/-!  Concrete fixtures: a small tier schedule, decoders standing for
`serde_json::from_str` on specific configuration texts, and cart lines
exercising the optional chain. -/

/-- Tier "10% off from 5" of the spec's example scenario. -/
def tierFive : TierConfig :=
  { qty := 5, discount := 10.0, label := "ten-off" }

/-- Tier "20% off from 10" of the spec's example scenario. -/
def tierTen : TierConfig :=
  { qty := 10, discount := 20.0, label := "twenty-off" }

/-- The example two-tier schedule. -/
def demoTiers : List TierConfig := [tierFive, tierTen]

/-- A tier whose threshold is zero: `serde_json` happily decodes a zero
`qty` into the unvalidated `i64` field of `TierConfig`. -/
def tierZero : TierConfig :=
  { qty := 0, discount := 7.5, label := "zero-threshold" }

/-- Decoder standing for `serde_json::from_str`: it decodes the text
"tiers-cfg" to the one-tier schedule `[tierFive]` and fails on anything
else (in particular on `"not valid json"`). -/
def decode0 : String → Option (List TierConfig) :=
  fun s => if s = "tiers-cfg" then some [tierFive] else none

/-- Decoder standing for `serde_json::from_str` on a configuration whose
only tier has threshold zero. -/
def decodeZero : String → Option (List TierConfig) :=
  fun s => if s = "zero-cfg" then some [tierZero] else none

/-- A cart line whose merchandise is a product variant with the full
metafield chain populated down to the raw configuration text. -/
def mkVariantLine (q : Int) (vid : String) (raw : String) : CartLine :=
  { quantity := q
    merchandise := Merchandise.productVariant
      { id := vid
        product :=
          { volume_discount := some
              { reference := some (VolumeDiscountReference.metaobject
                  { tiers := some { value := raw } }) } } } }

/-- A qualifying line: quantity 6 against the threshold-5 schedule. -/
def dupLine : CartLine := mkVariantLine 6 "gid-var-1" "tiers-cfg"

/-- A cart holding the same qualifying line twice: the same variant can
appear on two distinct cart lines. -/
def dupInput : ResponseData := { cart := { lines := [dupLine, dupLine] } }

/-- A cart holding the qualifying line once. -/
def soloInput : ResponseData := { cart := { lines := [dupLine] } }

/-- A non-qualifying line: quantity 3 against the threshold-5 schedule. -/
def lowLine : CartLine := mkVariantLine 3 "gid-var-1" "tiers-cfg"

/-- A line whose configuration text fails to decode. -/
def badLine : CartLine := mkVariantLine 50 "gid-var-2" "not valid json"

/-- A line whose merchandise is not a product variant. -/
def plainLine : CartLine :=
  { quantity := 4, merchandise := Merchandise.otherMerchandise }

/-- A line whose schedule holds only the zero-threshold tier. -/
def zeroLine (q : Int) : CartLine := mkVariantLine q "gid-var-z" "zero-cfg"

/-- The empty cart. -/
def emptyInput : ResponseData := { cart := { lines := [] } }

/-!  Lemmas about the best-tier fold. -/

/-- Once the fold holds a tier, it keeps holding one, and the held
threshold never decreases. -/
theorem foldl_best_dominates (q : Int) :
    ∀ (config : List TierConfig) (b : TierConfig),
      ∃ c, config.foldl (bestTierStep q) (some b) = some c ∧ b.qty ≤ c.qty := by
  intro config
  induction config with
  | nil => exact fun b => ⟨b, rfl, le_refl _⟩
  | cons t rest ih =>
    intro b
    simp only [List.foldl_cons]
    by_cases hq : q ≥ t.qty
    · by_cases hgt : t.qty > b.qty
      · obtain ⟨c, hc, hbc⟩ := ih t
        exact ⟨c, by simpa [bestTierStep, hq, hgt] using hc, le_of_lt (lt_of_lt_of_le hgt hbc)⟩
      · obtain ⟨c, hc, hbc⟩ := ih b
        exact ⟨c, by simpa [bestTierStep, hq, hgt] using hc, hbc⟩
    · obtain ⟨c, hc, hbc⟩ := ih b
      exact ⟨c, by simpa [bestTierStep, hq] using hc, hbc⟩

/-- Soundness of the fold: the tier it ends with is either the starting
accumulator or a candidate drawn from the list. -/
theorem foldl_best_sound (q : Int) :
    ∀ (config : List TierConfig) (acc : Option TierConfig) (c : TierConfig),
      config.foldl (bestTierStep q) acc = some c →
      acc = some c ∨ (c ∈ config ∧ q ≥ c.qty) := by
  intro config
  induction config with
  | nil => exact fun acc c h => Or.inl h
  | cons t rest ih =>
    intro acc c h
    simp only [List.foldl_cons] at h
    rcases ih (bestTierStep q acc t) c h with hstep | hmem
    · by_cases hq : q ≥ t.qty
      · cases acc with
        | none =>
          simp [bestTierStep, hq] at hstep
          exact Or.inr ⟨by simp [hstep], hstep ▸ hq⟩
        | some a =>
          by_cases hgt : t.qty > a.qty
          · simp [bestTierStep, hq, hgt] at hstep
            exact Or.inr ⟨by simp [hstep], hstep ▸ hq⟩
          · simp [bestTierStep, hq, hgt] at hstep
            exact Or.inl (by simp [hstep])
      · simp [bestTierStep, hq] at hstep
        exact Or.inl hstep
    · exact Or.inr ⟨List.mem_cons_of_mem _ hmem.1, hmem.2⟩

/-- Maximality of the fold: the final tier's threshold dominates the
threshold of every candidate in the list. -/
theorem foldl_best_max (q : Int) :
    ∀ (config : List TierConfig) (acc : Option TierConfig) (c : TierConfig),
      config.foldl (bestTierStep q) acc = some c →
      ∀ u ∈ config, q ≥ u.qty → u.qty ≤ c.qty := by
  intro config
  induction config with
  | nil => intro acc c _ u hu; cases hu
  | cons t rest ih =>
    intro acc c h u hu hq
    simp only [List.foldl_cons] at h
    rcases List.mem_cons.mp hu with rfl | hmem
    · -- after the step, the accumulator holds a tier whose threshold is ≥ u.qty
      have hstep : ∃ b, bestTierStep q acc u = some b ∧ u.qty ≤ b.qty := by
        cases acc with
        | none => exact ⟨u, by simp [bestTierStep, hq], le_refl _⟩
        | some a =>
          by_cases hgt : u.qty > a.qty
          · exact ⟨u, by simp [bestTierStep, hq, hgt], le_refl _⟩
          · exact ⟨a, by simp [bestTierStep, hq, hgt], le_of_not_lt hgt⟩
      obtain ⟨b, hb, hub⟩ := hstep
      rw [hb] at h
      obtain ⟨c', hc', hbc'⟩ := foldl_best_dominates q rest b
      rw [h] at hc'
      cases hc'
      exact le_trans hub hbc'
    · exact ih (bestTierStep q acc t) c h u hmem hq

/-- Stability of the fold: when no candidate in the list strictly beats the
held tier, the fold returns the held tier unchanged. -/
theorem foldl_best_stable (q : Int) :
    ∀ (config : List TierConfig) (b : TierConfig),
      (∀ u ∈ config, q ≥ u.qty → u.qty ≤ b.qty) →
      config.foldl (bestTierStep q) (some b) = some b := by
  intro config
  induction config with
  | nil => intro b _; rfl
  | cons t rest ih =>
    intro b hall
    simp only [List.foldl_cons]
    by_cases hq : q ≥ t.qty
    · have hle : t.qty ≤ b.qty := hall t (List.mem_cons_self _ _) hq
      have hstep : bestTierStep q (some b) t = some b := by
        simp [bestTierStep, hq, not_lt_of_le hle]
      rw [hstep]
      exact ih b fun u hu => hall u (List.mem_cons_of_mem _ hu)
    · have hstep : bestTierStep q (some b) t = some b := by
        simp [bestTierStep, hq]
      rw [hstep]
      exact ih b fun u hu => hall u (List.mem_cons_of_mem _ hu)

/-- When the list has no candidate at all, the fold returns its
accumulator unchanged. -/
theorem foldl_best_of_no_candidate (q : Int) :
    ∀ (config : List TierConfig) (acc : Option TierConfig),
      (∀ u ∈ config, ¬ q ≥ u.qty) →
      config.foldl (bestTierStep q) acc = acc := by
  intro config
  induction config with
  | nil => intro acc _; rfl
  | cons t rest ih =>
    intro acc hall
    simp only [List.foldl_cons]
    have hstep : bestTierStep q acc t = acc := by
      simp [bestTierStep, hall t (List.mem_cons_self _ _)]
    rw [hstep]
    exact ih acc fun u hu => hall u (List.mem_cons_of_mem _ hu)

/-- Completeness of the fold: as soon as the list holds one candidate, the
fold ends with some tier. -/
theorem foldl_best_isSome (q : Int) :
    ∀ (config : List TierConfig) (acc : Option TierConfig) (u : TierConfig),
      u ∈ config → q ≥ u.qty →
      ∃ c, config.foldl (bestTierStep q) acc = some c := by
  intro config
  induction config with
  | nil => intro acc u hu; cases hu
  | cons t rest ih =>
    intro acc u hu hq
    simp only [List.foldl_cons]
    rcases List.mem_cons.mp hu with rfl | hmem
    · have hstep : ∃ b, bestTierStep q acc u = some b := by
        cases acc with
        | none => exact ⟨u, by simp [bestTierStep, hq]⟩
        | some a =>
          by_cases hgt : u.qty > a.qty
          · exact ⟨u, by simp [bestTierStep, hq, hgt]⟩
          · exact ⟨a, by simp [bestTierStep, hq, hgt]⟩
      obtain ⟨b, hb⟩ := hstep
      rw [hb]
      obtain ⟨c, hc, _⟩ := foldl_best_dominates q rest b
      exact ⟨c, hc⟩
    · exact ih (bestTierStep q acc t) u hmem hq

/-- First-seen property of the fold: the final tier splits the list into a
strict-smaller-candidates region before it and the rest after it; and the
accumulator it replaced, if any, had a strictly smaller threshold. -/
theorem foldl_best_first (q : Int) :
    ∀ (config : List TierConfig) (acc : Option TierConfig) (c : TierConfig),
      config.foldl (bestTierStep q) acc = some c →
      acc = some c ∨
        ∃ pre post, config = pre ++ c :: post ∧ q ≥ c.qty ∧
          (∀ b, acc = some b → b.qty < c.qty) ∧
          (∀ u ∈ pre, q ≥ u.qty → u.qty < c.qty) := by
  intro config
  induction config with
  | nil => exact fun acc c h => Or.inl h
  | cons t rest ih =>
    intro acc c h
    simp only [List.foldl_cons] at h
    rcases ih (bestTierStep q acc t) c h with hstep | ⟨pre, post, hsplit, hqc, haccb, hpre⟩
    · -- the tail kept the stepped accumulator: decide whether the step
      -- kept acc or promoted t
      by_cases hq : q ≥ t.qty
      · cases acc with
        | none =>
          simp [bestTierStep, hq] at hstep
          refine Or.inr ⟨[], rest, by simp [hstep], hstep ▸ hq, ?_, ?_⟩
          · intro b hb; cases hb
          · intro u hu; cases hu
        | some a =>
          by_cases hgt : t.qty > a.qty
          · simp [bestTierStep, hq, hgt] at hstep
            refine Or.inr ⟨[], rest, by simp [hstep], hstep ▸ hq, ?_, ?_⟩
            · intro b hb
              cases hb
              exact hstep ▸ hgt
            · intro u hu; cases hu
          · simp [bestTierStep, hq, hgt] at hstep
            exact Or.inl (by simp [hstep])
      · simp [bestTierStep, hq] at hstep
        exact Or.inl hstep
    · -- the winner lives in the tail: extend the prefix with t
      refine Or.inr ⟨t :: pre, post, by simp [hsplit], hqc, ?_, ?_⟩
      · intro b hb
        by_cases hq : q ≥ t.qty
        · cases hb
          by_cases hgt : t.qty > b.qty
          · have hkeep : bestTierStep q (some b) t = some t := by
              simp [bestTierStep, hq, hgt]
            exact lt_trans hgt (haccb t hkeep)
          · have hkeep : bestTierStep q (some b) t = some b := by
              simp [bestTierStep, hq, hgt]
            exact haccb b hkeep
        · cases hb
          have hkeep : bestTierStep q (some b) t = some b := by
            simp [bestTierStep, hq]
          exact haccb b hkeep
      · intro u hu hqu
        rcases List.mem_cons.mp hu with rfl | hmem
        · -- t itself: after the step the accumulator dominates t.qty and
          -- the tail's acc bound is strict below c.qty
          by_cases hgt : ∀ a, acc = some a → u.qty > a.qty
          · cases acc with
            | none =>
              have hkeep : bestTierStep q none u = some u := by
                simp [bestTierStep, hqu]
              exact haccb u hkeep
            | some a =>
              have hkeep : bestTierStep q (some a) u = some u := by
                simp [bestTierStep, hqu, hgt a rfl]
              exact haccb u hkeep
          · push_neg at hgt
            obtain ⟨a, ha, hle⟩ := hgt
            have hkeep : bestTierStep q acc u = some a := by
              rw [ha]
              simp [bestTierStep, hqu, not_lt_of_le hle]
            exact lt_of_le_of_lt hle (haccb a hkeep)
        · exact hpre u hmem hqu

/-- Generic helper: `find?` over a split list returns the split point when
it satisfies the predicate and everything before it does not. -/
theorem find?_append_of_first {α : Type} (p : α → Bool) :
    ∀ (pre : List α) (c : α) (post : List α),
      p c = true → (∀ u ∈ pre, p u = false) →
      List.find? p (pre ++ c :: post) = some c := by
  intro pre
  induction pre with
  | nil =>
    intro c post hc _
    simpa using List.find?_cons_of_pos post hc
  | cons a pre ih =>
    intro c post hc hall
    have ha : p a = false := hall a (List.mem_cons_self _ _)
    simp only [List.cons_append, List.find?_cons, ha]
    exact ih c post hc fun u hu => hall u (List.mem_cons_of_mem _ hu)

/-- The best-tier fold of run.rs computes exactly the spec's TierResolver:
the first candidate in the sequence whose threshold dominates every
candidate's threshold. -/
theorem bestTier_eq_resolveSpec (q : Int) (config : List TierConfig) :
    bestTier q config = resolveSpec q config := by
  cases h : bestTier q config with
  | none =>
    -- no candidate at all, otherwise the fold would have ended with a tier
    have hnone : ∀ u ∈ config, ¬ q ≥ u.qty := by
      intro u hu hq
      obtain ⟨c, hc⟩ := foldl_best_isSome q config none u hu hq
      rw [bestTier] at h
      rw [h] at hc
      cases hc
    symm
    rw [resolveSpec, List.find?_eq_none]
    intro t ht
    simp only [Bool.and_eq_true, decide_eq_true_eq, not_and]
    intro hq
    exact absurd hq (hnone t ht)
  | some c =>
    have hmax : ∀ u ∈ config, q ≥ u.qty → u.qty ≤ c.qty :=
      foldl_best_max q config none c h
    rcases foldl_best_first q config none c h with hacc | ⟨pre, post, hsplit, hqc, _, hpre⟩
    · cases hacc
    have hcmem : c ∈ config := by
      rw [hsplit]
      exact List.mem_append_right _ (List.mem_cons_self _ _)
    symm
    rw [resolveSpec, hsplit]
    apply find?_append_of_first
    · simp only [Bool.and_eq_true, decide_eq_true_eq, List.all_eq_true]
      refine ⟨hqc, ?_⟩
      intro u hu
      rw [← hsplit] at hu
      simp only [Bool.or_eq_true, Bool.not_eq_true', decide_eq_false_iff_not,
        decide_eq_true_eq]
      by_cases hq : u.qty ≤ q
      · exact Or.inr (hmax u hu hq)
      · exact Or.inl hq
    · intro u hu
      rw [Bool.eq_false_iff]
      intro htrue
      simp only [Bool.and_eq_true, decide_eq_true_eq, List.all_eq_true,
        Bool.or_eq_true, Bool.not_eq_true', decide_eq_false_iff_not,
        decide_eq_true_eq] at htrue
      obtain ⟨hqu, hdom⟩ := htrue
      have hlt : u.qty < c.qty := hpre u hu hqu
      have hle : c.qty ≤ u.qty := by
        rcases hdom c (hsplit ▸ hcmem) with hnc | hcu
        · exact absurd hqc hnc
        · exact hcu
      exact absurd hle (not_le_of_lt hlt)

/-- Unfolded form of the per-line loop body: it is the `configFor` /
`variantId` lookup followed by parse, best-tier fold, and discount
construction. -/
theorem lineDiscount_eq (from_str : String → Option (List TierConfig))
    (line : CartLine) :
    lineDiscount from_str line =
      match variantId line, configFor line with
      | some ref, some raw =>
          Option.map (buildDiscount ref)
            (bestTier line.quantity (parseTiers from_str raw))
      | _, _ => none := by
  obtain ⟨q, merch⟩ := line
  cases merch with
  | otherMerchandise => rfl
  | productVariant variant =>
    obtain ⟨vid, product⟩ := variant
    cases hmf : product.volume_discount with
    | none => simp [lineDiscount, variantId, configFor, hmf]
    | some metafield =>
      cases href : metafield.reference with
      | none => simp [lineDiscount, variantId, configFor, hmf, href]
      | some reference =>
        cases reference with
        | otherReference => simp [lineDiscount, variantId, configFor, hmf, href]
        | metaobject metaobject =>
          cases htf : metaobject.tiers with
          | none => simp [lineDiscount, variantId, configFor, hmf, href, htf]
          | some tiers_field =>
            simp only [lineDiscount, variantId, configFor, hmf, href, htf]
            cases bestTier q (parseTiers from_str tiers_field.value) with
            | none => rfl
            | some tier => rfl

/-- The loop body agrees with the spec-side per-line transform. -/
theorem lineDiscount_eq_spec (from_str : String → Option (List TierConfig))
    (line : CartLine) :
    lineDiscount from_str line = lineDiscountSpec from_str line := by
  rw [lineDiscount_eq, lineDiscountSpec]
  cases variantId line with
  | none => rfl
  | some ref =>
    cases configFor line with
    | none => rfl
    | some raw => simp only [bestTier_eq_resolveSpec]

/-- The push loop is a `filterMap` appended to the starting accumulator. -/
theorem foldl_push_eq_filterMap (from_str : String → Option (List TierConfig)) :
    ∀ (l : List CartLine) (acc : List Discount),
      l.foldl (pushLine from_str) acc =
        acc ++ l.filterMap (lineDiscount from_str) := by
  intro l
  induction l with
  | nil => intro acc; simp
  | cons x l ih =>
    intro acc
    simp only [List.foldl_cons]
    cases hx : lineDiscount from_str x with
    | none => simp [ih, List.filterMap_cons, hx, pushLine]
    | some d => simp [ih, List.filterMap_cons, hx, pushLine]

/-- The discount loop of run.rs is a `filterMap` of the per-line body over
the cart lines. -/
theorem discountsOf_eq_filterMap (from_str : String → Option (List TierConfig))
    (input : ResponseData) :
    discountsOf from_str input =
      input.cart.lines.filterMap (lineDiscount from_str) := by
  rw [discountsOf]
  simpa using foldl_push_eq_filterMap from_str input.cart.lines []

/-- A discount produced for a line targets that line's own variant id. -/
theorem lineDiscount_target_id (from_str : String → Option (List TierConfig))
    (l : CartLine) (d : Discount) (ref : String)
    (hd : lineDiscount from_str l = some d) (ht : targetsRef d ref = true) :
    variantId l = some ref := by
  rw [lineDiscount_eq] at hd
  cases hv : variantId l with
  | none =>
    rw [hv] at hd
    cases configFor l <;> simp at hd
  | some r =>
    rw [hv] at hd
    cases hc : configFor l with
    | none => rw [hc] at hd; simp at hd
    | some raw =>
      rw [hc] at hd
      simp only [Option.map_eq_some'] at hd
      obtain ⟨tier, _, rfl⟩ := hd
      simp only [targetsRef, buildDiscount, List.any_cons, List.any_nil,
        Bool.or_false] at ht
      have : r = ref := by simpa using ht
      rw [this]

/-- Bounded multiplicity from distinct references: a reference occurs at
most once among the lines' variant ids, so at most one line matches it. -/
theorem countP_variantId_le_one (ref : String) :
    ∀ (lines : List CartLine), (lines.filterMap variantId).Nodup →
      lines.countP (fun l => decide (variantId l = some ref)) ≤ 1 := by
  intro lines
  induction lines with
  | nil => intro _; simp
  | cons a rest ih =>
    intro hnd
    rw [List.countP_cons]
    cases ha : variantId a with
    | none =>
      have hnd' : (rest.filterMap variantId).Nodup := by
        rwa [List.filterMap_cons_none ha] at hnd
      simpa [ha] using ih hnd'
    | some x =>
      rw [List.filterMap_cons_some ha] at hnd
      obtain ⟨hx, hnd'⟩ := List.nodup_cons.mp hnd
      by_cases hxr : x = ref
      · subst hxr
        have hzero : rest.countP (fun l => decide (variantId l = some x)) = 0 := by
          rw [List.countP_eq_zero]
          intro l hl
          simp only [decide_eq_true_eq]
          intro hlx
          exact hx (List.mem_filterMap.mpr ⟨l, hl, hlx⟩)
        simp [ha, hzero]
      · simpa [ha, hxr] using ih hnd'

/-!  The claims. -/

/-- C1: for every cart line quantity `q` and every parsed tier schedule,
the tier the resolver returns is a candidate (`q ≥ threshold`) drawn from
the schedule, and its threshold dominates every candidate's threshold —
so for eligible tiers `t1, t2` with `t1.qty > t2.qty` it never returns
`t2` over `t1`. -/
theorem resolver_selects_largest_threshold (q : Int)
    (config : List TierConfig) (t : TierConfig)
    (h : bestTier q config = some t) :
    t ∈ config ∧ q ≥ t.qty ∧ ∀ u ∈ config, q ≥ u.qty → u.qty ≤ t.qty := by
  rcases foldl_best_sound q config none t h with hacc | ⟨hmem, hq⟩
  · cases hacc
  exact ⟨hmem, hq, foldl_best_max q config none t h⟩

/-- Witness for C1: on the example schedule with quantity 12, the resolver
picks the threshold-10 tier, and the theorem's conclusions hold for it. -/
theorem resolver_selects_largest_threshold_witness :
    tierTen ∈ demoTiers ∧ (12 : Int) ≥ tierTen.qty ∧
      ∀ u ∈ demoTiers, (12 : Int) ≥ u.qty → u.qty ≤ tierTen.qty :=
  resolver_selects_largest_threshold 12 demoTiers tierTen rfl

/-- C2: the resolver is exactly the spec's "first candidate with the
largest threshold" rule — when several candidates share the maximal
threshold, the first one encountered in the input sequence wins, and the
selection depends on the order of the sequence only through that
tie-break. -/
theorem resolver_tie_break_first_seen (q : Int) (config : List TierConfig) :
    bestTier q config = resolveSpec q config :=
  bestTier_eq_resolveSpec q config

/-- C3: an absent configuration text yields no discount, and a text the
decoder rejects (for instance the empty text, which is not a JSON list)
parses to the empty schedule and yields no discount — the failure is
recovered, never surfaced, and no partial subset of tiers survives. -/
theorem parse_failure_recovered (from_str : String → Option (List TierConfig))
    (line : CartLine) :
    (configFor line = none → lineDiscount from_str line = none) ∧
    ∀ s, configFor line = some s → from_str s = none →
      parseTiers from_str s = [] ∧ lineDiscount from_str line = none := by
  constructor
  · intro hnone
    rw [lineDiscount_eq, hnone]
    cases variantId line <;> rfl
  · intro s hs hfail
    have hparse : parseTiers from_str s = [] := by
      rw [parseTiers, hfail]
      rfl
    refine ⟨hparse, ?_⟩
    rw [lineDiscount_eq, hs]
    cases variantId line with
    | none => rfl
    | some ref =>
      show Option.map (buildDiscount ref)
        (bestTier line.quantity (parseTiers from_str s)) = none
      rw [hparse]
      rfl

/-- Witness for C3: a non-variant line gets no discount, and the line whose
configuration text is `"not valid json"` (which `decode0` rejects) parses
to zero tiers and gets no discount. -/
theorem parse_failure_recovered_witness :
    lineDiscount decode0 plainLine = none ∧
      (parseTiers decode0 "not valid json" = [] ∧
        lineDiscount decode0 badLine = none) :=
  ⟨(parse_failure_recovered decode0 plainLine).1 rfl,
   (parse_failure_recovered decode0 badLine).2 "not valid json" rfl rfl⟩

/-- C4: when the line's quantity is below every threshold of its parsed
schedule (in particular when the schedule is empty), the resolver returns
nothing and the line receives no discount. -/
theorem no_candidate_no_discount (from_str : String → Option (List TierConfig))
    (line : CartLine) (s : String)
    (hs : configFor line = some s)
    (hlow : ∀ t ∈ parseTiers from_str s, line.quantity < t.qty) :
    bestTier line.quantity (parseTiers from_str s) = none ∧
      lineDiscount from_str line = none := by
  have hb : bestTier line.quantity (parseTiers from_str s) = none :=
    foldl_best_of_no_candidate line.quantity (parseTiers from_str s) none
      fun u hu => not_le.mpr (hlow u hu)
  refine ⟨hb, ?_⟩
  rw [lineDiscount_eq, hs]
  cases variantId line with
  | none => rfl
  | some ref =>
    show Option.map (buildDiscount ref)
      (bestTier line.quantity (parseTiers from_str s)) = none
    rw [hb]
    rfl

/-- Witness for C4: quantity 3 against the threshold-5 schedule resolves to
no tier and no discount. -/
theorem no_candidate_no_discount_witness :
    bestTier lowLine.quantity (parseTiers decode0 "tiers-cfg") = none ∧
      lineDiscount decode0 lowLine = none :=
  no_candidate_no_discount decode0 lowLine "tiers-cfg" rfl (by decide)

/-- C5: the function is total — for every well-typed input (any decoder,
any cart, including the empty one) it returns `Ok` of a
`FunctionResult`; no input produces the error branch. -/
theorem function_total (from_str : String → Option (List TierConfig))
    (input : ResponseData) :
    ∃ r, function from_str input = Except.ok r :=
  ⟨_, rfl⟩

/-- Counterexample for C6: the declared input shape lets the same variant
appear on two distinct cart lines; both lines qualify, so the output holds
two discounts whose target is that line's merchandise reference, refuting
"at most one per merchandise reference". -/
theorem at_most_one_per_line_counterexample :
    dupLine ∈ dupInput.cart.lines ∧ variantId dupLine = some "gid-var-1" ∧
      ¬ (discountsOf decode0 dupInput).countP
          (fun d => targetsRef d "gid-var-1") ≤ 1 := by
  refine ⟨by decide, rfl, by decide⟩

/-- C6 (amended): when the lines' merchandise references are pairwise
distinct, the output contains at most one discount whose target is a given
line's merchandise reference — each line contributes at most one
discount. -/
theorem at_most_one_per_distinct_ref
    (from_str : String → Option (List TierConfig)) (input : ResponseData)
    (hnodup : (input.cart.lines.filterMap variantId).Nodup)
    (line : CartLine) (_hline : line ∈ input.cart.lines)
    (ref : String) (_href : variantId line = some ref) :
    (discountsOf from_str input).countP (fun d => targetsRef d ref) ≤ 1 := by
  rw [discountsOf_eq_filterMap, List.countP_filterMap]
  have hmono :
      input.cart.lines.countP
          (fun l => ((lineDiscount from_str l).map
            (fun d => targetsRef d ref)).getD false) ≤
        input.cart.lines.countP (fun l => decide (variantId l = some ref)) := by
    apply List.countP_mono_left
    intro l _ hp
    cases hd : lineDiscount from_str l with
    | none => rw [hd] at hp; simp at hp
    | some d =>
      rw [hd] at hp
      simp only [Option.map_some', Option.getD_some] at hp
      simpa using lineDiscount_target_id from_str l d ref hd hp
  exact le_trans hmono (countP_variantId_le_one ref input.cart.lines hnodup)

/-- Witness for C6 (amended): a one-line cart has pairwise distinct
references, and its output indeed holds at most one discount targeting the
line's reference. -/
theorem at_most_one_per_distinct_ref_witness :
    (discountsOf decode0 soloInput).countP
        (fun d => targetsRef d "gid-var-1") ≤ 1 :=
  at_most_one_per_distinct_ref decode0 soloInput (by decide)
    dupLine (by decide) "gid-var-1" rfl

/-- C7: whatever the cart and however many discounts were emitted, the
returned response carries the fixed `MAXIMUM` strategy tag. -/
theorem strategy_always_maximum (from_str : String → Option (List TierConfig))
    (input : ResponseData) (r : FunctionResult)
    (h : function from_str input = Except.ok r) :
    r.discount_application_strategy = DiscountApplicationStrategy.MAXIMUM := by
  rw [function] at h
  cases h
  rfl

/-- Witness for C7: on the empty cart the response is `Ok` with no
discounts and the `MAXIMUM` tag. -/
theorem strategy_always_maximum_witness :
    ({ discounts := []
       discount_application_strategy := DiscountApplicationStrategy.MAXIMUM } :
        FunctionResult).discount_application_strategy =
      DiscountApplicationStrategy.MAXIMUM :=
  strategy_always_maximum decode0 emptyInput _ rfl

/-- C8: the output list is the per-line results with the `none` lines
filtered out, in the order of the input cart — qualifying lines keep their
relative order. -/
theorem assemble_filters_and_preserves_order
    (from_str : String → Option (List TierConfig)) (input : ResponseData) :
    discountsOf from_str input =
      (input.cart.lines.map (lineDiscount from_str)).reduceOption := by
  rw [discountsOf_eq_filterMap]
  simp [List.reduceOption, List.filterMap_map, Function.id_comp]

/-- C9: the whole computation is an independent per-line pure transform
mapped over the input lines — the loop of run.rs equals the `filterMap` of
the spec-side per-line composition (classification, `configFor`,
ConfigParser, TierResolver, DiscountBuilder), so the processing schedule
of the lines cannot change the result. -/
theorem per_line_independent (from_str : String → Option (List TierConfig))
    (input : ResponseData) :
    function from_str input =
      Except.ok
        { discounts := input.cart.lines.filterMap (lineDiscountSpec from_str)
          discount_application_strategy := DiscountApplicationStrategy.MAXIMUM } := by
  rw [function, discountsOf_eq_filterMap]
  have hfun : lineDiscount from_str = lineDiscountSpec from_str :=
    funext (lineDiscount_eq_spec from_str)
  rw [hfun]

/-- C10: nothing in the code checks tier thresholds for positivity: a
decoded schedule may keep a zero-threshold tier (the `qty : i64` field of
`TierConfig` is unvalidated), that tier is a candidate for every positive
quantity, the resolver selects it, and a discount is emitted for the
line. -/
theorem no_positivity_check (q : Int) (hq : 0 < q) :
    parseTiers decodeZero "zero-cfg" = [tierZero] ∧
      q ≥ tierZero.qty ∧
      bestTier q [tierZero] = some tierZero ∧
      lineDiscount decodeZero (zeroLine q) =
        some (buildDiscount "gid-var-z" tierZero) := by
  have hq0 : q ≥ tierZero.qty := by
    simpa [tierZero] using le_of_lt hq
  have hbest : bestTier q [tierZero] = some tierZero := by
    simp [bestTier, bestTierStep, hq0]
  refine ⟨rfl, hq0, hbest, ?_⟩
  rw [lineDiscount_eq]
  have hv : variantId (zeroLine q) = some "gid-var-z" := rfl
  have hc : configFor (zeroLine q) = some "zero-cfg" := rfl
  rw [hv, hc]
  have hquant : (zeroLine q).quantity = q := rfl
  show Option.map (buildDiscount "gid-var-z")
      (bestTier (zeroLine q).quantity (parseTiers decodeZero "zero-cfg")) =
    some (buildDiscount "gid-var-z" tierZero)
  rw [hquant]
  have hparse : parseTiers decodeZero "zero-cfg" = [tierZero] := rfl
  rw [hparse, hbest]
  rfl

/-- Witness for C10: at quantity 1 the zero-threshold tier is selected and
its discount emitted. -/
theorem no_positivity_check_witness :
    parseTiers decodeZero "zero-cfg" = [tierZero] ∧
      (1 : Int) ≥ tierZero.qty ∧
      bestTier 1 [tierZero] = some tierZero ∧
      lineDiscount decodeZero (zeroLine 1) =
        some (buildDiscount "gid-var-z" tierZero) :=
  no_positivity_check 1 (by decide)

end VolumeLogic
